import Mathlib

/-!
Verification of `packages/theme-pack-helper/src/renderer-preset/inner-editor.ts`.

The module hosts an independent inner ProseMirror editor inside one node of an
outer document.  The hosted node's fragment holds at most a single text child
(the raw math/code source), so throughout this development a document content
is embedded as the list of its characters (generalised to a list over any type
with decidable equality): fragment diff positions coincide with list indices,
and `node.content.firstChild?.text || ''` coincides with the list itself
(the empty fragment gives the empty string, i.e. the empty list).

Stateful pieces (`createInnerEditor`'s closure over `isEditing`/`innerView`,
the DOM classes toggled by the renderer callbacks) are embedded as explicit
state-passing functions over a record type.
-/

/-- A ProseMirror `ReplaceStep` restricted to the text content hosted by the
inner editor: replace the range `[fromPos, toPos)` of the document with
`slice`. -/
structure RStep (α : Type) where
  fromPos : Nat
  toPos : Nat
  slice : List α
deriving DecidableEq, Repr

/-- Application of a `ReplaceStep` to text content (`doc.replace(from, to,
slice)` for an in-bounds step). -/
def applyStep (doc : List α) (s : RStep α) : List α :=
  doc.take s.fromPos ++ s.slice ++ doc.drop s.toPos

/-- Application of a list of steps in order, as a ProseMirror transaction
applies its steps. -/
def applyTr (doc : List α) (steps : List (RStep α)) : List α :=
  steps.foldl applyStep doc

/-- `StepMap.offset(o)` acting on a `ReplaceStep`: both positions are shifted
by the constant offset.  For the nonnegative offsets used in the source
(`getPos() + 1 ≥ 1`) this mapping never deletes a position. -/
def offsetStep (o : Nat) (s : RStep α) : RStep α :=
  ⟨s.fromPos + o, s.toPos + o, s.slice⟩

/-- The concrete step-mapping primitive `step.map(StepMap.offset(o))` used by
`dispatchTransaction`: on the text `ReplaceStep`s hosted here an offset map
always succeeds. -/
def mapStep (o : Nat) (s : RStep α) : Option (RStep α) :=
  some (offsetStep o s)

/-- An inner-editor transaction as `dispatchTransaction` observes it: its
steps plus the `fromOutside` metadata flag (`tr.getMeta('fromOutside')`). -/
structure InnerTr (α : Type) where
  fromOutside : Bool
  steps : List (RStep α)
deriving DecidableEq, Repr

/-- The forwarding loop of `dispatchTransaction` (inner-editor.ts lines
100-110): map each step through the external step-mapping primitive `mp`
(`step.map(offsetMap)`, which per the external interface may signal
unrepresentability by returning null), accumulating the mapped steps of the
outer transaction in order; a null result raises `Error('step discarded!')`,
aborting the loop. -/
def forwardSteps (mp : RStep α → Option (RStep α)) :
    List (RStep α) → Except String (List (RStep α))
  | [] => Except.ok []
  | s :: rest =>
    match mp s with
    | none => Except.error "step discarded!"
    | some m => (forwardSteps mp rest).map (fun ms => m :: ms)

/-- `Transform.docChanged` from prosemirror-transform: "True when the document
has been changed (when there are any steps)" — it tests step presence, not
whether the steps' net effect differs from the identity. -/
def docChanged (steps : List (RStep α)) : Bool :=
  !steps.isEmpty

/-- The observable outcome of one `dispatchTransaction` call: the inner
document after `innerView.updateState(state)`, the outer transaction passed to
`outerView.dispatch` (if any), and the error thrown (if any). -/
structure DispatchResult (α : Type) where
  innerDoc : List α
  outerDispatched : Option (List (RStep α))
  thrown : Option String
deriving DecidableEq, Repr

/-- `dispatchTransaction` (inner-editor.ts lines 91-113).  The transaction is
applied to the inner state and the new state installed first
(`applyTransaction` / `updateState`; no plugin appends transactions here, so
the applied batch is the dispatched transaction alone).  Only afterwards, and
only when the transaction does not carry the `fromOutside` meta tag, are its
steps mapped through the offset step map and the accumulated outer transaction
dispatched — and only if `outerTr.docChanged`.  A failed step mapping throws
`Error('step discarded!')` before any outer dispatch.  The step-mapping
primitive `mp` is the external collaborator parameter; the source instantiates
it with `StepMap.offset(getPos() + 1)` (see `dispatchWithPos`). -/
def dispatchTransaction (mp : RStep α → Option (RStep α))
    (innerDoc : List α) (tr : InnerTr α) : DispatchResult α :=
  let newInner := applyTr innerDoc tr.steps
  if tr.fromOutside then
    ⟨newInner, none, none⟩
  else
    match forwardSteps mp tr.steps with
    | Except.error e => ⟨newInner, none, some e⟩
    | Except.ok mapped =>
      if docChanged mapped then ⟨newInner, some mapped, none⟩
      else ⟨newInner, none, none⟩

/-- `dispatchTransaction` with the step map the source actually builds at
forward time: `StepMap.offset(getPos() + 1)`, where `getPos` is the node's
current outer start position, read anew inside each dispatch (line 98). -/
def dispatchWithPos (getPos : Nat) (innerDoc : List α) (tr : InnerTr α) :
    DispatchResult α :=
  dispatchTransaction (mapStep (getPos + 1)) innerDoc tr

/-- ProseMirror `Fragment.findDiffStart` on text content: position of the
first divergence scanning from the front, `none` when the contents are
identical. -/
def findDiffStart [DecidableEq α] : List α → List α → Option Nat
  | [], [] => none
  | [], _ :: _ => some 0
  | _ :: _, [] => some 0
  | a :: as, b :: bs =>
    if a = b then (findDiffStart as bs).map (· + 1) else some 0

/-- ProseMirror `Fragment.findDiffEnd` on text content: scanning from the
back, the pair of positions (in the first and second content respectively)
just after which the two contents agree; `none` when identical. -/
def findDiffEnd [DecidableEq α] (a b : List α) : Option (Nat × Nat) :=
  (findDiffStart a.reverse b.reverse).map
    (fun s => (a.length - s, b.length - s))

/-- The diff-reconciliation computation of `onUpdate` (inner-editor.ts lines
170-179): the shared diff start, and the two end offsets extended by the
overlap amount when the suffix boundaries overlap the prefix boundary.  The
JavaScript `overlap = start - Math.min(endA, endB); if (overlap > 0) ...`
coincides with truncated natural subtraction: when `start ≤ min endA endB`
the offsets are left unchanged. -/
def reconcile [DecidableEq α] (outer inner : List α) :
    Option (Nat × Nat × Nat) :=
  match findDiffStart outer inner with
  | none => none
  | some start =>
    match findDiffEnd outer inner with
    | none => none
    | some (endA, endB) =>
      let overlap := start - min endA endB
      some (start, endA + overlap, endB + overlap)

/-- The hosted outer node as the renderer callbacks observe it: its
`attrs.value` string and its text content. -/
structure NodeModel (α : Type) where
  attrsValue : List α
  content : List α
deriving DecidableEq, Repr

/-- The observable outcome of one `onUpdate` call: the patch transaction
dispatched to the inner view (if any), the value written to
`editor.dataset.value` (if any), and the argument passed to `render` (if
any). -/
structure UpdateResult (α : Type) where
  patchDispatched : Option (InnerTr α)
  datasetValue : Option (List α)
  rendered : Option (List α)
deriving DecidableEq, Repr

/-- `onUpdate` (inner-editor.ts lines 160-191).  On the initial call the
renderer is seeded from `node.attrs.value` and the function returns.
Otherwise, when an inner view exists, the diff between the node content and
the inner document is computed and, when a diff start is found, the patch
`tr.replace(start, endB, node.slice(start, endA))` tagged
`fromOutside: true` is dispatched to the inner view; in every non-initial
call the canonical text value is then recomputed from the node content
(`node.content.firstChild?.text || ''`) and pushed to the dataset and to
`render`.  `innerDoc` is the inner view's document when a session is open
(`inner$.innerView()`), `none` otherwise. -/
def onUpdate [DecidableEq α] (node : NodeModel α) (isInit : Bool)
    (innerDoc : Option (List α)) : UpdateResult α :=
  if isInit then
    ⟨none, some node.attrsValue, some node.attrsValue⟩
  else
    let patch : Option (InnerTr α) :=
      match innerDoc with
      | none => none
      | some doc =>
        match reconcile node.content doc with
        | none => none
        | some (start, endA, endB) =>
          some ⟨true, [⟨start, endB, (node.content.drop start).take (endA - start)⟩]⟩
    ⟨patch, some node.content, some node.content⟩

/-- The renderer's mutable state: the `createInnerEditor` closure
(`isEditing`, `innerView`) together with the DOM flags the callbacks toggle.
Inner `EditorView` instances are identified by a construction counter
(`nextId` counts the instances constructed so far), so that constructing a
fresh instance is observable. -/
structure RendererState where
  isEditing : Bool
  innerView : Option Nat
  nextId : Nat
  hideCode : Bool
  selectedClass : Bool
  domAttached : Bool
deriving DecidableEq, Repr

/-- The renderer's state as created by the theme factory: idle, the editor
element carrying `hideCodeStyle`, the DOM elements attached. -/
def initState : RendererState :=
  ⟨false, none, 0, true, false, true⟩

/-- `openEditor` (inner-editor.ts lines 64-119): unconditionally constructs a
fresh inner `EditorView` (there is no guard on `isEditing`), stores it in
`innerView`, and sets `isEditing`.  The previous instance, if any, is
overwritten without being destroyed. -/
def openEditor (s : RendererState) : RendererState :=
  { s with innerView := some s.nextId, nextId := s.nextId + 1, isEditing := true }

/-- `closeEditor` (inner-editor.ts lines 121-127): destroys the inner view if
one is live, then clears `innerView` and `isEditing`. -/
def closeEditor (s : RendererState) : RendererState :=
  { s with innerView := none, isEditing := false }

/-- `onFocus` (inner-editor.ts lines 192-199): a no-op unless the outer view
is editable; otherwise removes the hide-code class, opens the inner editor,
and marks the node visually selected. -/
def onFocus (editable : Bool) (s : RendererState) : RendererState :=
  if !editable then s
  else { openEditor s with hideCode := false, selectedClass := true }

/-- `onBlur` (inner-editor.ts lines 200-206): restores the hide-code class,
closes the inner editor, and clears the visual selection marker. -/
def onBlur (s : RendererState) : RendererState :=
  { closeEditor s with hideCode := true, selectedClass := false }

/-- `onDestroy` (inner-editor.ts lines 207-211): removes the preview, editor
and wrapper DOM elements.  It does not touch the `createInnerEditor` closure:
`closeEditor` is not called. -/
def onDestroy (s : RendererState) : RendererState :=
  { s with domAttached := false }

/-! ### Properties of the diff scan -/

theorem findDiffStart_eq_none_iff [DecidableEq α] :
    ∀ a b : List α, findDiffStart a b = none ↔ a = b
  | [], [] => by simp [findDiffStart]
  | [], _ :: _ => by simp [findDiffStart]
  | _ :: _, [] => by simp [findDiffStart]
  | a :: as, b :: bs => by
    by_cases hab : a = b
    · subst hab
      simp [findDiffStart, Option.map_eq_none', findDiffStart_eq_none_iff as bs]
    · simp [findDiffStart, hab]

theorem findDiffStart_take [DecidableEq α] :
    ∀ (a b : List α) (s : Nat), findDiffStart a b = some s →
      a.take s = b.take s ∧ s ≤ a.length ∧ s ≤ b.length
  | [], [], s => by simp [findDiffStart]
  | [], _ :: _, s => by
    intro h
    simp [findDiffStart] at h
    simp [← h]
  | _ :: _, [], s => by
    intro h
    simp [findDiffStart] at h
    simp [← h]
  | a :: as, b :: bs, s => by
    intro h
    by_cases hab : a = b
    · subst hab
      rw [findDiffStart, if_pos rfl] at h
      cases hfds : findDiffStart as bs with
      | none => rw [hfds] at h; simp at h
      | some t =>
        rw [hfds] at h
        simp only [Option.map_some'] at h
        obtain rfl : t + 1 = s := by injection h
        obtain ⟨h1, h2, h3⟩ := findDiffStart_take as bs t hfds
        refine ⟨?_, Nat.succ_le_succ h2, Nat.succ_le_succ h3⟩
        simp [List.take_succ_cons, h1]
    · rw [findDiffStart, if_neg hab] at h
      obtain rfl : (0 : Nat) = s := by injection h
      simp

theorem findDiffEnd_spec [DecidableEq α] (a b : List α) (endA endB : Nat)
    (h : findDiffEnd a b = some (endA, endB)) :
    a.drop endA = b.drop endB ∧ endA ≤ a.length ∧ endB ≤ b.length := by
  unfold findDiffEnd at h
  cases hfds : findDiffStart a.reverse b.reverse with
  | none => rw [hfds] at h; simp at h
  | some s =>
    rw [hfds] at h
    simp only [Option.map_some', Option.some.injEq, Prod.mk.injEq] at h
    obtain ⟨rfl, rfl⟩ := h
    obtain ⟨htk, hsa, hsb⟩ := findDiffStart_take _ _ _ hfds
    rw [List.length_reverse] at hsa
    rw [List.length_reverse] at hsb
    have hda : a.drop (a.length - s) = (a.reverse.take s).reverse := by
      rw [List.take_reverse, List.reverse_reverse]
    have hdb : b.drop (b.length - s) = (b.reverse.take s).reverse := by
      rw [List.take_reverse, List.reverse_reverse]
    exact ⟨by rw [hda, hdb, htk], by omega, by omega⟩

theorem findDiffEnd_eq_none_iff [DecidableEq α] (a b : List α) :
    findDiffEnd a b = none ↔ a = b := by
  unfold findDiffEnd
  rw [Option.map_eq_none', findDiffStart_eq_none_iff]
  exact ⟨fun h => List.reverse_injective h, fun h => by rw [h]⟩

/-- The unadjusted replacement: when the diff start does not overlap the
suffix boundary in the outer content, splicing the outer slice between the
shared prefix and shared suffix reassembles the outer content. -/
theorem replace_aux (a b : List α) (st endA endB : Nat) (hstA : st ≤ endA)
    (hpre : a.take st = b.take st) (hsuf : a.drop endA = b.drop endB) :
    b.take st ++ (a.drop st).take (endA - st) ++ b.drop endB = a := by
  rw [← hpre, ← hsuf]
  have h3 : List.take st a ++ List.take (endA - st) (List.drop st a)
      = List.take endA a := by
    rw [← List.take_add]
    congr 1
    omega
  rw [h3, List.take_append_drop]

/-- Core correctness of the overlap-adjusted patch: replacing, in the inner
content `b`, the adjusted range by the adjusted slice of the outer content
`a` yields exactly `a`. -/
theorem patch_transforms [DecidableEq α] (a b : List α) (st endA endB : Nat)
    (hs : findDiffStart a b = some st) (he : findDiffEnd a b = some (endA, endB)) :
    applyStep b ⟨st, endB + (st - min endA endB),
        (a.drop st).take (endA + (st - min endA endB) - st)⟩ = a := by
  obtain ⟨hpre, hsa, hsb⟩ := findDiffStart_take a b st hs
  obtain ⟨hsuf, heA, heB⟩ := findDiffEnd_spec a b endA endB he
  show b.take st ++ (a.drop st).take (endA + (st - min endA endB) - st)
      ++ b.drop (endB + (st - min endA endB)) = a
  rcases Nat.le_total endA endB with hAB | hBA
  · rw [min_eq_left hAB]
    by_cases hst : st ≤ endA
    · rw [Nat.sub_eq_zero_of_le hst]
      simp only [Nat.add_zero]
      exact replace_aux a b st endA endB hst hpre hsuf
    · rw [show endA + (st - endA) - st = 0 from by omega, List.take_zero]
      have hdrop : List.drop (endB + (st - endA)) b = List.drop st a := by
        have h4 := congrArg (List.drop (st - endA)) hsuf
        rw [List.drop_drop, List.drop_drop] at h4
        rw [← h4]
        congr 1
        omega
      rw [← hpre, hdrop]
      simp [List.take_append_drop]
  · rw [min_eq_right hBA]
    by_cases hst : st ≤ endB
    · rw [Nat.sub_eq_zero_of_le hst]
      simp only [Nat.add_zero]
      exact replace_aux a b st endA endB (le_trans hst hBA) hpre hsuf
    · rw [show endA + (st - endB) - st = endA - endB from by omega,
          show endB + (st - endB) = st from by omega]
      have hdrop : List.drop st b = List.drop (st + (endA - endB)) a := by
        have h4 := congrArg (List.drop (st - endB)) hsuf
        rw [List.drop_drop, List.drop_drop] at h4
        rw [show endB + (st - endB) = st from by omega] at h4
        rw [← h4]
        congr 1
        omega
      rw [← hpre, hdrop]
      have h3 : List.take st a ++ List.take (endA - endB) (List.drop st a)
          = List.take (st + (endA - endB)) a := (List.take_add a st (endA - endB)).symm
      rw [h3, List.take_append_drop]

/-! ### Properties of the forwarding loop -/

theorem forwardSteps_error_of_fail (mp : RStep α → Option (RStep α)) :
    ∀ steps : List (RStep α), (∃ s ∈ steps, mp s = none) →
      forwardSteps mp steps = Except.error "step discarded!"
  | [], h => by simp at h
  | s :: rest, h => by
    rw [forwardSteps]
    cases hmp : mp s with
    | none => rfl
    | some m =>
      obtain ⟨t, ht, htn⟩ := h
      rcases List.mem_cons.mp ht with rfl | htr
      · rw [hmp] at htn
        exact absurd htn (by simp)
      · rw [forwardSteps_error_of_fail mp rest ⟨t, htr, htn⟩]
        rfl

theorem forwardSteps_mapStep (o : Nat) :
    ∀ steps : List (RStep α),
      forwardSteps (mapStep o) steps = Except.ok (steps.map (offsetStep o))
  | [] => rfl
  | s :: rest => by
    rw [forwardSteps, mapStep, forwardSteps_mapStep o rest]
    rfl

theorem reconcile_eq_none_iff [DecidableEq α] (a b : List α) :
    reconcile a b = none ↔ a = b := by
  unfold reconcile
  cases hfds : findDiffStart a b with
  | none => simpa using (findDiffStart_eq_none_iff a b).mp hfds
  | some st =>
    have hne : ¬ a = b := fun h => by
      rw [(findDiffStart_eq_none_iff a b).mpr h] at hfds
      cases hfds
    cases hfde : findDiffEnd a b with
    | none => exact absurd ((findDiffEnd_eq_none_iff a b).mp hfde) hne
    | some p =>
      cases p with
      | mk endA endB => simpa using hne

/-! ### Claim theorems -/

/-- C1.  Loop freedom: a transaction carrying the externally-originated tag
(`fromOutside` metadata) never causes an outer dispatch, and every patch
produced by the diff-reconciliation path of `onUpdate` carries that tag, so
reconciliation patches are never re-forwarded to the outer document. -/
theorem c1_loop_freedom {α : Type} [DecidableEq α] :
    (∀ (mp : RStep α → Option (RStep α)) (doc : List α) (tr : InnerTr α),
      tr.fromOutside = true →
      (dispatchTransaction mp doc tr).outerDispatched = none) ∧
    (∀ (node : NodeModel α) (doc : List α) (p : InnerTr α),
      (onUpdate node false (some doc)).patchDispatched = some p →
      p.fromOutside = true ∧
      ∀ (mp : RStep α → Option (RStep α)) (d : List α),
        (dispatchTransaction mp d p).outerDispatched = none) := by
  have h1 : ∀ (mp : RStep α → Option (RStep α)) (doc : List α) (tr : InnerTr α),
      tr.fromOutside = true →
      (dispatchTransaction mp doc tr).outerDispatched = none := by
    intro mp doc tr h
    simp [dispatchTransaction, h]
  refine ⟨h1, ?_⟩
  intro node doc p hp
  simp only [onUpdate, Bool.false_eq_true, if_false] at hp
  cases hrec : reconcile node.content doc with
  | none => rw [hrec] at hp; simp at hp
  | some t =>
    obtain ⟨start, endA, endB⟩ := t
    rw [hrec] at hp
    simp only [Option.some.injEq] at hp
    have hout : p.fromOutside = true := by rw [← hp]
    exact ⟨hout, fun mp d => h1 mp d p hout⟩

/-- Witness for C1: the concrete externally-tagged transaction is not
forwarded, and the concrete patch `onUpdate` produces for outer `"aaaa"`
against inner `"aaa"` is tagged and not forwarded. -/
theorem c1_loop_freedom_witness :
    (dispatchTransaction (mapStep 1) (['a'] : List Char)
        ⟨true, [⟨0, 0, ['b']⟩]⟩).outerDispatched = none ∧
    (⟨true, [⟨3, 3, ['a']⟩]⟩ : InnerTr Char).fromOutside = true ∧
    (dispatchTransaction (mapStep 1) (['a', 'a', 'a'] : List Char)
        ⟨true, [⟨3, 3, ['a']⟩]⟩).outerDispatched = none :=
  ⟨c1_loop_freedom.1 (mapStep 1) ['a'] ⟨true, [⟨0, 0, ['b']⟩]⟩ rfl,
   (c1_loop_freedom.2 ⟨[], ['a', 'a', 'a', 'a']⟩ ['a', 'a', 'a']
      ⟨true, [⟨3, 3, ['a']⟩]⟩ (by decide)).1,
   (c1_loop_freedom.2 ⟨[], ['a', 'a', 'a', 'a']⟩ ['a', 'a', 'a']
      ⟨true, [⟨3, 3, ['a']⟩]⟩ (by decide)).2 (mapStep 1) ['a', 'a', 'a']⟩

/-- C3.  Step-mapping failure is fatal and loud: when forwarding a
non-external inner transaction, if the mapping primitive fails on any of its
steps, `Error('step discarded!')` is raised and no outer transaction is
dispatched for that forward batch. -/
theorem c3_mapping_failure_fatal (mp : RStep α → Option (RStep α))
    (doc : List α) (tr : InnerTr α)
    (hl : tr.fromOutside = false) (hf : ∃ s ∈ tr.steps, mp s = none) :
    (dispatchTransaction mp doc tr).thrown = some "step discarded!" ∧
    (dispatchTransaction mp doc tr).outerDispatched = none := by
  have herr := forwardSteps_error_of_fail mp tr.steps hf
  simp [dispatchTransaction, hl, herr]

/-- Witness for C3: a one-step transaction whose step the mapping primitive
rejects throws and dispatches nothing. -/
theorem c3_mapping_failure_fatal_witness :
    (dispatchTransaction (fun _ => none) ([] : List Char)
        ⟨false, [⟨0, 0, ['a']⟩]⟩).thrown = some "step discarded!" ∧
    (dispatchTransaction (fun _ => none) ([] : List Char)
        ⟨false, [⟨0, 0, ['a']⟩]⟩).outerDispatched = none :=
  c3_mapping_failure_fatal (fun _ => none) [] ⟨false, [⟨0, 0, ['a']⟩]⟩ rfl
    ⟨⟨0, 0, ['a']⟩, by decide, rfl⟩

/-- C10 (implicit).  `dispatchTransaction` installs the applied transaction
into the inner state before any step mapping or outer dispatch is attempted:
in every branch the resulting inner document is the transaction applied to
the previous inner document; hence when step mapping fails and the error is
thrown, the inner document retains the applied edit while no outer
transaction is dispatched — the two documents are left divergent. -/
theorem c10_inner_applied_before_forward (mp : RStep α → Option (RStep α))
    (doc : List α) (tr : InnerTr α) :
    (dispatchTransaction mp doc tr).innerDoc = applyTr doc tr.steps ∧
    (tr.fromOutside = false → (∃ s ∈ tr.steps, mp s = none) →
      (dispatchTransaction mp doc tr).thrown = some "step discarded!" ∧
      (dispatchTransaction mp doc tr).outerDispatched = none ∧
      (dispatchTransaction mp doc tr).innerDoc = applyTr doc tr.steps) := by
  have hinner : (dispatchTransaction mp doc tr).innerDoc = applyTr doc tr.steps := by
    unfold dispatchTransaction
    by_cases h : tr.fromOutside
    · simp [h]
    · simp only [h]
      cases forwardSteps mp tr.steps with
      | error e => simp
      | ok mapped =>
        by_cases hd : docChanged mapped <;> simp [hd]
  refine ⟨hinner, fun hl hf => ?_⟩
  have herr := forwardSteps_error_of_fail mp tr.steps hf
  refine ⟨?_, ?_, hinner⟩ <;> simp [dispatchTransaction, hl, herr]

/-- Witness for C10: on a failing mapping, the inner document keeps the
inserted character while nothing is dispatched outward. -/
theorem c10_inner_applied_before_forward_witness :
    (dispatchTransaction (fun _ => none) (['x'] : List Char)
        ⟨false, [⟨1, 1, ['y']⟩]⟩).innerDoc = applyTr ['x'] [⟨1, 1, ['y']⟩] ∧
    (dispatchTransaction (fun _ => none) (['x'] : List Char)
        ⟨false, [⟨1, 1, ['y']⟩]⟩).thrown = some "step discarded!" ∧
    (dispatchTransaction (fun _ => none) (['x'] : List Char)
        ⟨false, [⟨1, 1, ['y']⟩]⟩).outerDispatched = none :=
  have h := c10_inner_applied_before_forward (fun _ => none) (['x'] : List Char)
    ⟨false, [⟨1, 1, ['y']⟩]⟩
  ⟨h.1, (h.2 rfl ⟨⟨1, 1, ['y']⟩, by decide, rfl⟩).1, (h.2 rfl ⟨⟨1, 1, ['y']⟩, by decide, rfl⟩).2.1⟩

/-- C9 counterexample: a non-external transaction holding the single
zero-width, empty-slice step `⟨1,1,[]⟩` produces an accumulated outer
transaction with no actual content effect (applying the mapped step leaves
any outer document unchanged, shown here on a concrete one), yet an outer
dispatch does occur, because the source tests `outerTr.docChanged`, which is
step presence, not content change. -/
theorem c9_counterexample :
    (dispatchWithPos 0 (['a', 'b'] : List Char) ⟨false, [⟨1, 1, []⟩]⟩).outerDispatched
      = some [⟨2, 2, []⟩] ∧
    applyTr (['x', 'y', 'z'] : List Char) [⟨2, 2, []⟩] = ['x', 'y', 'z'] := by
  decide

/-- C9 (amended).  No spurious outer edits: the dispatch test is
`outerTr.docChanged`, i.e. presence of steps, so a non-external inner
transaction that accumulates no steps (e.g. a selection-only transaction)
causes no outer dispatch; a nonempty batch of steps is dispatched even when
its net content effect is trivial. -/
theorem c9_no_steps_no_dispatch (mp : RStep α → Option (RStep α))
    (doc : List α) (tr : InnerTr α) (h : tr.steps = []) :
    (dispatchTransaction mp doc tr).outerDispatched = none := by
  unfold dispatchTransaction
  by_cases hf : tr.fromOutside <;> simp [hf, h, forwardSteps, docChanged]

/-- Witness for C9 (amended): a selection-only (stepless) transaction is not
forwarded. -/
theorem c9_no_steps_no_dispatch_witness :
    (dispatchTransaction (mapStep 1) (['a'] : List Char) ⟨false, []⟩).outerDispatched
      = none :=
  c9_no_steps_no_dispatch (mapStep 1) ['a'] ⟨false, []⟩ rfl

/-- C6.  Offset mapping correctness: forwarding maps every step of a
non-external inner transaction by the constant offset `getPos() + 1`, where
`getPos` is read at forward time for each dispatch (it is an argument of each
`dispatchWithPos` call, not state cached at construction); and typing `"+1"`
at the end of an inner document containing `"x = 1"` dispatches exactly one
outer transaction whose single step inserts `"+1"` at position
`(getPos + 1) + 5`, i.e. basePosition + 5. -/
theorem c6_offset_mapping (getPos : Nat) :
    (∀ {α : Type} (doc : List α) (tr : InnerTr α), tr.fromOutside = false →
      (dispatchWithPos getPos doc tr).outerDispatched =
        if tr.steps.isEmpty then none
        else some (tr.steps.map (offsetStep (getPos + 1)))) ∧
    ((dispatchWithPos getPos (['x', ' ', '=', ' ', '1'] : List Char)
        ⟨false, [⟨5, 5, ['+', '1']⟩]⟩).innerDoc
      = ['x', ' ', '=', ' ', '1', '+', '1'] ∧
    (dispatchWithPos getPos (['x', ' ', '=', ' ', '1'] : List Char)
        ⟨false, [⟨5, 5, ['+', '1']⟩]⟩).outerDispatched
      = some [⟨(getPos + 1) + 5, (getPos + 1) + 5, ['+', '1']⟩] ∧
    (dispatchWithPos getPos (['x', ' ', '=', ' ', '1'] : List Char)
        ⟨false, [⟨5, 5, ['+', '1']⟩]⟩).thrown = none) := by
  have hgen : ∀ {α : Type} (doc : List α) (tr : InnerTr α), tr.fromOutside = false →
      (dispatchWithPos getPos doc tr).outerDispatched =
        if tr.steps.isEmpty then none
        else some (tr.steps.map (offsetStep (getPos + 1))) := by
    intro α doc tr h
    unfold dispatchWithPos dispatchTransaction
    rw [forwardSteps_mapStep]
    cases hsteps : tr.steps with
    | nil => simp [h, hsteps, docChanged]
    | cons s rest => simp [h, hsteps, docChanged]
  refine ⟨hgen, ?_, ?_, ?_⟩
  · rfl
  · rw [hgen ['x', ' ', '=', ' ', '1'] ⟨false, [⟨5, 5, ['+', '1']⟩]⟩ rfl]
    simp [offsetStep]
    omega
  · rfl

/-- Witness for C6: the general forwarding law at a concrete position, inner
document and transaction. -/
theorem c6_offset_mapping_witness :
    (dispatchWithPos 7 (['a'] : List Char) ⟨false, [⟨0, 0, ['b']⟩]⟩).outerDispatched =
      if ([⟨0, 0, ['b']⟩] : List (RStep Char)).isEmpty then none
      else some (([⟨0, 0, ['b']⟩] : List (RStep Char)).map (offsetStep (7 + 1))) :=
  (c6_offset_mapping 7).1 ['a'] ⟨false, [⟨0, 0, ['b']⟩]⟩ rfl

/-- C2.  Overlap correctness of diff reconciliation: when a diff start is
found, both end offsets are extended by exactly the overlap amount
`start - min endA endB` (zero when there is no overlap), and the patch
`onUpdate` produces — replace `[start, endB)` of the inner content by the
outer content's slice `[start, endA)` — applied through the inner dispatch
transforms the inner content into exactly the outer content. -/
theorem c2_overlap_correctness {α : Type} [DecidableEq α]
    (outer inner : List α) (start endA endB : Nat)
    (hs : findDiffStart outer inner = some start)
    (he : findDiffEnd outer inner = some (endA, endB)) :
    reconcile outer inner
      = some (start, endA + (start - min endA endB), endB + (start - min endA endB)) ∧
    ∀ (av : List α) (mp : RStep α → Option (RStep α)),
      ∃ p : InnerTr α,
        (onUpdate ⟨av, outer⟩ false (some inner)).patchDispatched = some p ∧
        (dispatchTransaction mp inner p).innerDoc = outer := by
  have hrec : reconcile outer inner
      = some (start, endA + (start - min endA endB), endB + (start - min endA endB)) := by
    unfold reconcile
    rw [hs, he]
  refine ⟨hrec, fun av mp => ?_⟩
  refine ⟨⟨true, [⟨start, endB + (start - min endA endB),
      (outer.drop start).take (endA + (start - min endA endB) - start)⟩]⟩, ?_, ?_⟩
  · simp only [onUpdate, Bool.false_eq_true, if_false]
    rw [hrec]
  · show applyTr inner [_] = outer
    show applyStep inner _ = outer
    exact patch_transforms outer inner start endA endB hs he

/-- Witness for C2 on the ambiguous pair outer `"aaaa"`, inner `"aaa"`:
the reconciler extends the ends across the overlap and the resulting patch
rebuilds `"aaaa"` exactly. -/
theorem c2_overlap_correctness_witness :
    reconcile (['a', 'a', 'a', 'a'] : List Char) ['a', 'a', 'a'] = some (3, 4, 3) ∧
    (onUpdate (⟨[], ['a', 'a', 'a', 'a']⟩ : NodeModel Char) false
        (some ['a', 'a', 'a'])).patchDispatched = some ⟨true, [⟨3, 3, ['a']⟩]⟩ ∧
    (dispatchTransaction (mapStep 1) (['a', 'a', 'a'] : List Char)
        ⟨true, [⟨3, 3, ['a']⟩]⟩).innerDoc = ['a', 'a', 'a', 'a'] := by
  have h := c2_overlap_correctness ['a', 'a', 'a', 'a'] ['a', 'a', 'a'] 3 1 0
    (by decide) (by decide)
  obtain ⟨p, hp1, hp2⟩ := h.2 [] (mapStep 1)
  have hpe : p = ⟨true, [⟨3, 3, ['a']⟩]⟩ := by
    have hconc : (onUpdate (⟨[], ['a', 'a', 'a', 'a']⟩ : NodeModel Char) false
        (some ['a', 'a', 'a'])).patchDispatched = some ⟨true, [⟨3, 3, ['a']⟩]⟩ := by decide
    rw [hp1] at hconc
    exact Option.some.inj hconc
  refine ⟨h.1.trans (by decide), ?_, ?_⟩
  · rw [hp1, hpe]
  · rw [← hpe]
    exact hp2

/-- C7.  Patch emission condition: with a session open, `onUpdate` dispatches
no patch exactly when the outer node content and the inner document content
are identical; and a pure point insertion (diff found, empty changed range in
the inner document) still dispatches a zero-width patch, shown on the
concrete pair outer `"aXb"`, inner `"ab"`. -/
theorem c7_patch_emission {α : Type} [DecidableEq α] :
    (∀ (node : NodeModel α) (doc : List α),
      ((onUpdate node false (some doc)).patchDispatched = none ↔ node.content = doc)) ∧
    (onUpdate (⟨[], ['a', 'X', 'b']⟩ : NodeModel Char) false
        (some ['a', 'b'])).patchDispatched = some ⟨true, [⟨1, 1, ['X']⟩]⟩ := by
  refine ⟨fun node doc => ?_, by decide⟩
  simp only [onUpdate, Bool.false_eq_true, if_false]
  cases hrec : reconcile node.content doc with
  | none => simpa using (reconcile_eq_none_iff node.content doc).mp hrec
  | some t =>
    obtain ⟨start, endA, endB⟩ := t
    have hne : ¬ node.content = doc := fun h => by
      rw [(reconcile_eq_none_iff node.content doc).mpr h] at hrec
      cases hrec
    simpa using hne

/-- C8.  `onUpdate` rendering behaviour: the initial call seeds the dataset
and the preview renderer with the node's stored attribute value and performs
no reconciliation; every non-initial call recomputes the canonical text value
from the node content and pushes it to the dataset and the preview renderer,
whether or not a session is open. -/
theorem c8_onUpdate_rendering {α : Type} [DecidableEq α]
    (node : NodeModel α) (sess : Option (List α)) :
    onUpdate node true sess = ⟨none, some node.attrsValue, some node.attrsValue⟩ ∧
    (onUpdate node false sess).rendered = some node.content ∧
    (onUpdate node false sess).datasetValue = some node.content :=
  ⟨rfl, rfl, rfl⟩

/-- C4 counterexample: focusing twice from the initial state is not the same
as focusing once — `openEditor` has no guard on `isEditing`, so the second
focus constructs a second inner editor instance (construction counter reaches
2 and the live view is the second instance). -/
theorem c4_counterexample :
    onFocus true (onFocus true initState) ≠ onFocus true initState ∧
    (onFocus true (onFocus true initState)).nextId = 2 ∧
    (onFocus true (onFocus true initState)).innerView = some 1 := by
  decide

/-- C4 (amended).  Blur is idempotent (a second blur changes nothing, and
after a blur the session is Idle), and a focus leaves the state Editing; but
focus is not idempotent: a focus request while already Editing constructs a
fresh second inner editor instance, replacing the live view without
destroying the previous one — only the `isEditing` flag and the DOM markers
are unchanged by the repetition. -/
theorem c4_lifecycle_amended (s : RendererState) :
    onBlur (onBlur s) = onBlur s ∧
    (onBlur s).innerView = none ∧
    (onBlur s).isEditing = false ∧
    (onFocus true s).isEditing = true ∧
    onFocus true (onFocus true s)
      = { onFocus true s with innerView := some (s.nextId + 1), nextId := s.nextId + 2 } :=
  ⟨rfl, rfl, rfl, rfl, rfl⟩

/-- C5 counterexample: destroying the renderer while a session is open leaves
the inner editor instance live — `onDestroy` removes only the DOM elements
and never calls `closeEditor`, so the session does not transition to Idle. -/
theorem c5_counterexample :
    (onDestroy (onFocus true initState)).isEditing = true ∧
    (onDestroy (onFocus true initState)).innerView ≠ none ∧
    (onDestroy (onFocus true initState)).domAttached = false := by
  decide

/-- C5 (amended).  `onDestroy` releases the owned DOM/UI resources (the
preview, editor and wrapper elements are removed) but does not force the
Editing-to-Idle transition: the `createInnerEditor` closure is untouched, so
the `isEditing` flag and any live inner editor instance survive
destruction. -/
theorem c5_onDestroy_amended (s : RendererState) :
    (onDestroy s).domAttached = false ∧
    (onDestroy s).isEditing = s.isEditing ∧
    (onDestroy s).innerView = s.innerView ∧
    (onDestroy s).nextId = s.nextId :=
  ⟨rfl, rfl, rfl, rfl⟩
